import Mathlib

/-!
# Verification of the mortgage amortization engine

Shallow embedding, over exact rationals, of the computational core of
`src/mortgage_calculator_new.py`:

* `MortgageCalculatorEngine.calculate_monthly_payment` and
  `MortgageCalculatorEngine.calculate_amortization` (the schedule generator,
  including the mutation of the engine's stored `extra_payment` field at a
  clamp event);
* `MortgageCalculator.validate_inputs` (the pre-engine validation);
* the payoff-projection section of `MortgageCalculator.calculate`
  (lines 594-633 of the source), including its fallible divisions, modelled
  with `Option` so that a Python `ZeroDivisionError` becomes `none`;
* `MortgageCalculator.update_yearly_visualization` (the yearly aggregator).

Python floats are modelled by `ℚ`; Python `/` by `pyDiv` (returning `none`
where Python raises `ZeroDivisionError`); Python `int(...)` truncation by
`pyInt`; Python `//` and `%` on integers by `Int.fdiv` and `Int.fmod`
(floor division, as in Python).
-/

namespace Mortgage

/-- Python float division: raises `ZeroDivisionError` (here: `none`) on a
zero denominator, otherwise exact division. -/
def pyDiv (a b : ℚ) : Option ℚ :=
  if b = 0 then none else some (a / b)

/-- Python `int(x)` on a real value: truncation toward zero. -/
def pyInt (x : ℚ) : ℤ :=
  if 0 ≤ x then ⌊x⌋ else -⌊-x⌋

/-- The mutable fields of `MortgageCalculatorEngine` (`__init__`,
lines 19-24 of the source). -/
structure EngineState where
  loan_amount : ℚ
  interest_rate : ℚ
  term_years : ℕ
  extra_payment : ℚ
  monthly_fee : ℚ
  deriving DecidableEq, Repr

/-- One month's record appended by `calculate_amortization`
(lines 51-59 of the source). -/
structure ScheduleEntry where
  month : ℕ
  payment : ℚ
  principal : ℚ
  interest : ℚ
  balance : ℚ
  extra_payment : ℚ
  fee : ℚ
  deriving DecidableEq, Repr

instance : Inhabited ScheduleEntry := ⟨⟨0, 0, 0, 0, 0, 0, 0⟩⟩

/-- The dictionary returned by `calculate_amortization` (lines 61-65). -/
structure AmortizationResult where
  schedule : List ScheduleEntry
  total_interest : ℚ
  final_payment_month : ℕ
  deriving DecidableEq, Repr

/-- `MortgageCalculatorEngine.calculate_monthly_payment` (lines 67-72):
linear amortization at zero rate, otherwise the annuity formula.  Both
branches divide, so both go through `pyDiv`. -/
def calculate_monthly_payment (s : EngineState) (monthly_rate : ℚ) (months : ℕ) : Option ℚ :=
  if monthly_rate = 0 then pyDiv s.loan_amount months
  else pyDiv (s.loan_amount * monthly_rate * (1 + monthly_rate) ^ months)
             ((1 + monthly_rate) ^ months - 1)

/-- The `for month in range(1, months + 1)` loop of `calculate_amortization`
(lines 36-59), with the engine's mutable `self.extra_payment` threaded
through as the last state component.  Arguments after the three fixed
parameters: remaining fuel (months still allowed), the 1-based month index,
the running balance, the accumulated total interest, and the current value
of the engine's `extra_payment` field.  Returns the schedule produced from
this point on, the accumulated interest, and the final `extra_payment`. -/
def amortLoop (monthly_rate payment monthly_fee : ℚ) :
    ℕ → ℕ → ℚ → ℚ → ℚ → List ScheduleEntry × ℚ × ℚ
  | 0, _, _, total_interest, extra => ([], total_interest, extra)
  | fuel + 1, month, balance, total_interest, extra =>
    if balance ≤ 0 then ([], total_interest, extra)
    else
      let interest := balance * monthly_rate
      let principal := payment - interest
      let tp0 := principal + extra
      let tp := if tp0 > balance then balance else tp0
      let extra2 := if tp0 > balance then 0 else extra
      let balance2 := balance - tp
      let rest := amortLoop monthly_rate payment monthly_fee fuel (month + 1)
        balance2 (total_interest + interest) extra2
      (⟨month, tp + monthly_fee, principal, interest, balance2, extra2, monthly_fee⟩ :: rest.1,
        rest.2)

/-- `MortgageCalculatorEngine.calculate_amortization` (lines 26-65).  The
returned pair is the result dictionary together with the engine state after
the call (the call mutates `self.extra_payment` at a clamp event). -/
def calculate_amortization (s : EngineState) : Option (AmortizationResult × EngineState) :=
  let monthly_rate := s.interest_rate / 100 / 12
  let months := s.term_years * 12
  (calculate_monthly_payment s monthly_rate months).map (fun payment =>
    let r := amortLoop monthly_rate payment s.monthly_fee months 1 s.loan_amount 0 s.extra_payment
    (⟨r.1, r.2.1, r.1.length⟩, { s with extra_payment := r.2.2 }))

/-- `MortgageCalculator.validate_inputs` (lines 503-551), on already-parsed
numeric values: `True` iff every check passes. -/
def validate_inputs (loan_seeking down_payment interest_rate principal_payment
    extra_payment monthly_fee : ℚ) : Bool :=
  0 < loan_seeking ∧ loan_seeking ≤ 100000000 ∧
  0 ≤ down_payment ∧ down_payment < loan_seeking ∧
  0 < interest_rate ∧ interest_rate ≤ 30 ∧
  0 ≤ principal_payment ∧ 0 ≤ extra_payment ∧ 0 ≤ monthly_fee

/-- The `for _ in range(months_with_extra)` interest-accrual loop of
`MortgageCalculator.calculate` (lines 613-618): accrue
`balance * monthly_rate`, then reduce the balance by the flat payment.
Arguments after the two fixed parameters: iterations left, remaining
balance, accumulator. -/
def flatInterest (monthly_rate total_monthly_payment : ℚ) : ℕ → ℚ → ℚ → ℚ
  | 0, _, acc => acc
  | n + 1, balance, acc =>
    flatInterest monthly_rate total_monthly_payment n
      (balance - total_monthly_payment) (acc + balance * monthly_rate)

/-- The numeric outputs of the payoff-projection section of
`MortgageCalculator.calculate` (lines 594-633). -/
structure CalcOutputs where
  total_interest : ℚ
  years_to_payoff : ℤ
  months_to_payoff : ℤ
  years_saved : ℤ
  months_saved : ℤ
  interest_saved : ℚ
  deriving DecidableEq, Repr

/-- The payoff-projection section of `MortgageCalculator.calculate`
(lines 594-633), from the already-validated parsed inputs.  Every Python
division (including the `(1 + monthly_rate) ** -360` power with a zero base
and the annuity denominator) is guarded: `none` models a raised
`ZeroDivisionError`. -/
def calculateCore (loan_amount interest_rate principal_payment extra_payment
    monthly_fee : ℚ) : Option CalcOutputs :=
  let monthly_rate := interest_rate / 100 / 12
  if 1 + monthly_rate = 0 then none
  else if 1 - (1 + monthly_rate) ^ (-360 : ℤ) = 0 then none
  else
    let base_monthly := loan_amount * monthly_rate / (1 - (1 + monthly_rate) ^ (-360 : ℤ))
    let total_interest := base_monthly * 360 - loan_amount
    if 0 < extra_payment then
      let total_monthly_payment := principal_payment + extra_payment
      if total_monthly_payment = 0 then none
      else
        let months_with_extra := pyInt (loan_amount / total_monthly_payment)
        let total_interest_with_extra :=
          flatInterest monthly_rate total_monthly_payment months_with_extra.toNat loan_amount 0
        let interest_saved := total_interest - total_interest_with_extra
        if principal_payment = 0 then none
        else
          let base_months := pyInt (loan_amount / principal_payment)
          let time_saved := base_months - months_with_extra
          some ⟨total_interest, months_with_extra.fdiv 12, months_with_extra.fmod 12,
            time_saved.fdiv 12, time_saved.fmod 12, interest_saved⟩
    else
      if principal_payment * 12 = 0 then none
      else
        some ⟨total_interest, pyInt (loan_amount / (principal_payment * 12)), 0, 0, 0, 0⟩

/-- The inner `for _ in range(12)` loop of `update_yearly_visualization`
(lines 698-704): one year of monthly interest accrual under the flat
reduction, with a mid-year break once the balance is exhausted.  Returns the
year's accrued interest and the balance left after the year. -/
def yearInner (monthly_rate principal_payment extra_payment : ℚ) : ℕ → ℚ → ℚ × ℚ
  | 0, balance => (0, balance)
  | k + 1, balance =>
    if balance ≤ 0 then (0, balance)
    else
      let monthly_interest := balance * monthly_rate
      let rest := yearInner monthly_rate principal_payment extra_payment k
        (balance - (principal_payment + extra_payment))
      (monthly_interest + rest.1, rest.2)

/-- The outer `for _ in years_range` loop of `update_yearly_visualization`
(lines 697-706): the list of per-year accrued interests. -/
def yearlyLoop (monthly_rate principal_payment extra_payment : ℚ) : ℕ → ℚ → List ℚ
  | 0, _ => []
  | n + 1, balance =>
    let y := yearInner monthly_rate principal_payment extra_payment 12 balance
    y.1 :: yearlyLoop monthly_rate principal_payment extra_payment n y.2

/-- `MortgageCalculator.update_yearly_visualization` (lines 683-706), reduced
to its numeric content: one row per charted year, each row carrying the
year's accrued interest and the year's plotted total
`base_principal + extra_principal + interest + monthly_fee * 12`.
The row count follows `range(1, years + 1) if years > 0 else range(1, 2)`. -/
def update_yearly_visualization (loan_amount monthly_rate : ℚ) (years : ℤ)
    (principal_payment extra_payment monthly_fee : ℚ) : List (ℚ × ℚ) :=
  let count : ℕ := if 0 < years then years.toNat else 1
  (yearlyLoop monthly_rate principal_payment extra_payment count loan_amount).map
    (fun yi => (yi, principal_payment * 12 + extra_payment * 12 + yi + monthly_fee * 12))

/-! ## Adapters (projections of the optional results, for stating claims) -/

/-- The schedule produced by a `calculate_amortization` call (empty if the
payment formula raised). -/
def schedOf (s : EngineState) : List ScheduleEntry :=
  (calculate_amortization s).elim [] (fun x => x.1.schedule)

/-- `final_payment_month` of a `calculate_amortization` call. -/
def payoffMonthOf (s : EngineState) : ℕ :=
  (calculate_amortization s).elim 0 (fun x => x.1.final_payment_month)

/-- `total_interest` of a `calculate_amortization` call. -/
def totalInterestOf (s : EngineState) : ℚ :=
  (calculate_amortization s).elim 0 (fun x => x.1.total_interest)

/-- The engine's `extra_payment` field after a `calculate_amortization`
call. -/
def extraAfter (s : EngineState) : ℚ :=
  (calculate_amortization s).elim s.extra_payment (fun x => x.2.extra_payment)

/-- The result of a first `calculate_amortization` call. -/
def firstResult (s : EngineState) : Option AmortizationResult :=
  (calculate_amortization s).map (fun x => x.1)

/-- The result of a second `calculate_amortization` call on the engine state
left behind by a first call. -/
def secondResult (s : EngineState) : Option AmortizationResult :=
  (calculate_amortization s).bind (fun x => (calculate_amortization x.2).map (fun y => y.1))

/-- The base monthly payment of the whole-term schedule, as unwrapped inside
`calculate_amortization` (0 if the formula raised, in which case the
schedule is empty anyway). -/
def paymentOf (s : EngineState) : ℚ :=
  (calculate_monthly_payment s (s.interest_rate / 100 / 12) (s.term_years * 12)).elim 0 id

/-- `years_to_payoff` displayed by `calculate` (0 if it raised). -/
def cYearsToPayoff (loan_amount interest_rate principal_payment extra_payment
    monthly_fee : ℚ) : ℤ :=
  (calculateCore loan_amount interest_rate principal_payment extra_payment monthly_fee).elim 0
    (fun o => o.years_to_payoff)

/-- The total months to payoff displayed by `calculate`, recombined from its
years/months split (0 if it raised). -/
def cMonthsToPayoff (loan_amount interest_rate principal_payment extra_payment
    monthly_fee : ℚ) : ℤ :=
  (calculateCore loan_amount interest_rate principal_payment extra_payment monthly_fee).elim 0
    (fun o => 12 * o.years_to_payoff + o.months_to_payoff)

/-- The total time saved displayed by `calculate`, recombined from its
years/months split (0 if it raised). -/
def cTimeSaved (loan_amount interest_rate principal_payment extra_payment
    monthly_fee : ℚ) : ℤ :=
  (calculateCore loan_amount interest_rate principal_payment extra_payment monthly_fee).elim 0
    (fun o => 12 * o.years_saved + o.months_saved)

/-- The interest saved displayed by `calculate` (0 if it raised). -/
def cInterestSaved (loan_amount interest_rate principal_payment extra_payment
    monthly_fee : ℚ) : ℚ :=
  (calculateCore loan_amount interest_rate principal_payment extra_payment monthly_fee).elim 0
    (fun o => o.interest_saved)

/-- The engine `extra_payment` value in force when the loop reached entry
`i` of a schedule: the caller's value for the first entry, afterwards the
value recorded on the previous entry. -/
def extraBefore (extra0 : ℚ) (sch : List ScheduleEntry) (i : ℕ) : ℚ :=
  if i = 0 then extra0 else (sch.getD (i - 1) default).extra_payment

/-- The clamp-to-zero event at entry `i` of a schedule: the month's
principal-plus-extra payment would have exceeded the remaining balance
(the pre-payment balance is recovered as recorded balance plus actual
principal-plus-extra paid, which is the recorded payment minus the fee). -/
def clampAt (extra0 : ℚ) (sch : List ScheduleEntry) (i : ℕ) : Prop :=
  (sch.getD i default).balance + ((sch.getD i default).payment - (sch.getD i default).fee)
    < (sch.getD i default).principal + extraBefore extra0 sch i

/-- Follows the spec's words (§4.3): the baseline total interest of the flat
model assuming only `scheduledPrincipalPayment` — accrue
`balance * monthlyRate` each month, then reduce the balance by the scheduled
payment alone, until the balance is exhausted (after `⌈P / spp⌉` months).
This is the reference definition the source's `interest_saved` baseline is
compared against; the source itself uses a fixed 360-month annuity total
instead. -/
def specFlatBaselineInterest (principal monthly_rate scheduled_payment : ℚ) : ℚ :=
  flatInterest monthly_rate scheduled_payment (⌈principal / scheduled_payment⌉.toNat) principal 0

instance (extra0 : ℚ) (sch : List ScheduleEntry) (i : ℕ) : Decidable (clampAt extra0 sch i) := by
  unfold clampAt; infer_instance

attribute [local semireducible] Rat.add Rat.mul Rat.inv Rat.sub Rat.ofScientific

/-! ## Helper lemmas -/

/-- The annuity denominator `1 - (1 + r) ^ (-360)` used by `calculate` is
positive for a positive monthly rate. -/
lemma annuity_denom_pos {r : ℚ} (hr : 0 < r) : 0 < 1 - (1 + r) ^ (-360 : ℤ) := by
  have h1 : (1 : ℚ) < 1 + r := by linarith
  have hq : (1 : ℚ) < (1 + r) ^ (360 : ℕ) := one_lt_pow₀ h1 (by norm_num)
  have hz : (1 + r) ^ (-360 : ℤ) = ((1 + r) ^ (360 : ℕ))⁻¹ := by
    rw [zpow_neg]; exact congrArg Inv.inv (zpow_natCast (1 + r) 360)
  rw [hz]
  have : ((1 + r) ^ (360 : ℕ))⁻¹ < 1 := inv_lt_one_of_one_lt₀ hq
  linarith

/-- A call of the schedule loop on an exhausted (nonpositive) balance stops
immediately. -/
lemma amortLoop_nonpos (r p f : ℚ) (fuel m : ℕ) {b : ℚ} (ti e : ℚ) (hb : b ≤ 0) :
    amortLoop r p f fuel m b ti e = ([], ti, e) := by
  cases fuel <;> simp [amortLoop, hb]

/-- One step of the schedule loop in the clamp case: the payment is clamped
to the whole balance, the stored extra payment is zeroed, and the loop stops
after recording the clamp month (the balance is exactly zero afterwards). -/
lemma amortLoop_step_clamp (r p f : ℚ) (fuel m : ℕ) {b : ℚ} (ti e : ℚ)
    (hb : 0 < b) (hcl : b < p - b * r + e) :
    amortLoop r p f (fuel + 1) m b ti e =
      ([⟨m, b + f, p - b * r, b * r, 0, 0, f⟩], ti + b * r, 0) := by
  simp only [amortLoop, if_neg (not_le.mpr hb), if_pos (show p - b * r + e > b from hcl)]
  rw [sub_self, amortLoop_nonpos r p f fuel (m + 1) (ti + b * r) 0 le_rfl]

/-- One step of the schedule loop in the no-clamp case. -/
lemma amortLoop_step_noclamp (r p f : ℚ) (fuel m : ℕ) {b : ℚ} (ti e : ℚ)
    (hb : 0 < b) (hcl : ¬(b < p - b * r + e)) :
    amortLoop r p f (fuel + 1) m b ti e =
      (⟨m, (p - b * r + e) + f, p - b * r, b * r, b - (p - b * r + e), e, f⟩ ::
          (amortLoop r p f fuel (m + 1) (b - (p - b * r + e)) (ti + b * r) e).1,
        (amortLoop r p f fuel (m + 1) (b - (p - b * r + e)) (ti + b * r) e).2) := by
  simp only [amortLoop, if_neg (not_le.mpr hb),
    if_neg (show ¬(p - b * r + e > b) from hcl)]

/-- Every balance recorded by the schedule loop is non-negative, with no
hypotheses at all: a clamp month records exactly 0, any other month records
`b - tp` with `tp ≤ b`. -/
lemma amortLoop_balance_nonneg (r p f : ℚ) :
    ∀ (fuel m : ℕ) (b ti e : ℚ), ∀ x ∈ (amortLoop r p f fuel m b ti e).1, 0 ≤ x.balance := by
  intro fuel
  induction fuel with
  | zero => intro m b ti e x hx; simp [amortLoop] at hx
  | succ n ih =>
    intro m b ti e x hx
    by_cases hb : b ≤ 0
    · rw [amortLoop_nonpos r p f _ _ _ _ hb] at hx; simp at hx
    · push_neg at hb
      by_cases hcl : b < p - b * r + e
      · rw [amortLoop_step_clamp r p f n m ti e hb hcl] at hx
        simp at hx; subst hx; rfl
      · rw [amortLoop_step_noclamp r p f n m ti e hb hcl] at hx
        rcases List.mem_cons.mp hx with h | h
        · subst h; push_neg at hcl; simpa using hcl
        · exact ih _ _ _ _ x h

/-- The `principal` recorded on every entry is the unclamped annuity
component `payment - interest`, also in a clamp month. -/
lemma amortLoop_principal_eq (r p f : ℚ) :
    ∀ (fuel m : ℕ) (b ti e : ℚ), ∀ x ∈ (amortLoop r p f fuel m b ti e).1,
      x.principal = p - x.interest := by
  intro fuel
  induction fuel with
  | zero => intro m b ti e x hx; simp [amortLoop] at hx
  | succ n ih =>
    intro m b ti e x hx
    by_cases hb : b ≤ 0
    · rw [amortLoop_nonpos r p f _ _ _ _ hb] at hx; simp at hx
    · push_neg at hb
      by_cases hcl : b < p - b * r + e
      · rw [amortLoop_step_clamp r p f n m ti e hb hcl] at hx
        simp at hx; subst hx; rfl
      · rw [amortLoop_step_noclamp r p f n m ti e hb hcl] at hx
        rcases List.mem_cons.mp hx with h | h
        · subst h; rfl
        · exact ih _ _ _ _ x h

/-- Balance bound and monotonicity of the schedule loop under valid inputs:
if the rate is non-negative, the stored extra payment is non-negative, and
the fixed payment strictly exceeds the interest on the cap `P0`, then every
recorded balance is at most the entering balance and the recorded balances
are pairwise non-increasing. -/
lemma amortLoop_balance_mono (r p f P0 : ℚ) (hr : 0 ≤ r) (hpay : P0 * r < p) :
    ∀ (fuel m : ℕ) (b ti e : ℚ), 0 ≤ e → 0 ≤ b → b ≤ P0 →
      (∀ x ∈ (amortLoop r p f fuel m b ti e).1, x.balance ≤ b) ∧
      (amortLoop r p f fuel m b ti e).1.Pairwise (fun a c => c.balance ≤ a.balance) := by
  intro fuel
  induction fuel with
  | zero => intro m b ti e _ _ _; simp [amortLoop]
  | succ n ih =>
    intro m b ti e he hb0 hbP
    by_cases hb : b ≤ 0
    · rw [amortLoop_nonpos r p f _ _ _ _ hb]; simp
    · push_neg at hb
      have hint : b * r ≤ P0 * r := mul_le_mul_of_nonneg_right hbP hr
      by_cases hcl : b < p - b * r + e
      · rw [amortLoop_step_clamp r p f n m ti e hb hcl]
        constructor
        · intro x hx; simp at hx; subst hx; exact le_of_lt hb
        · simp
      · rw [amortLoop_step_noclamp r p f n m ti e hb hcl]
        push_neg at hcl
        have htp : 0 < p - b * r + e := by linarith
        have hb' : 0 ≤ b - (p - b * r + e) := by linarith
        have hlt : b - (p - b * r + e) < b := by linarith
        have hP' : b - (p - b * r + e) ≤ P0 := by linarith
        obtain ⟨hall, hpw⟩ := ih (m + 1) (b - (p - b * r + e)) (ti + b * r) e he hb' hP'
        constructor
        · intro x hx
          rcases List.mem_cons.mp hx with h | h
          · subst h; exact le_of_lt hlt
          · exact le_trans (hall x h) (le_of_lt hlt)
        · exact List.pairwise_cons.mpr ⟨fun x hx => hall x hx, hpw⟩

/-- A positive balance with fuel left always produces at least one entry. -/
lemma amortLoop_ne_nil (r p f : ℚ) (fuel m : ℕ) {b : ℚ} (ti e : ℚ) (hb : 0 < b) :
    (amortLoop r p f (fuel + 1) m b ti e).1 ≠ [] := by
  by_cases hcl : b < p - b * r + e
  · rw [amortLoop_step_clamp r p f fuel m ti e hb hcl]; simp
  · rw [amortLoop_step_noclamp r p f fuel m ti e hb hcl]; simp

/-- If the schedule loop stops before exhausting its fuel, the last recorded
balance is exactly zero. -/
lemma amortLoop_last_zero (r p f : ℚ) :
    ∀ (fuel m : ℕ) (b ti e : ℚ),
      (amortLoop r p f fuel m b ti e).1.length < fuel →
      ∀ x, (amortLoop r p f fuel m b ti e).1.getLast? = some x → x.balance = 0 := by
  intro fuel
  induction fuel with
  | zero => intro m b ti e h; omega
  | succ n ih =>
    intro m b ti e hlen x hlast
    by_cases hb : b ≤ 0
    · rw [amortLoop_nonpos r p f _ _ _ _ hb] at hlast; simp at hlast
    · push_neg at hb
      by_cases hcl : b < p - b * r + e
      · rw [amortLoop_step_clamp r p f n m ti e hb hcl] at hlast
        simp at hlast; rw [← hlast]
      · rw [amortLoop_step_noclamp r p f n m ti e hb hcl] at hlast hlen
        simp only [List.length_cons] at hlen
        have hrest : (amortLoop r p f n (m + 1) (b - (p - b * r + e)) (ti + b * r) e).1.length < n := by
          omega
        cases hrec : (amortLoop r p f n (m + 1) (b - (p - b * r + e)) (ti + b * r) e).1 with
        | nil =>
          have hn : 1 ≤ n := by rw [hrec] at hrest; simpa using hrest
          obtain ⟨n', rfl⟩ : ∃ n', n = n' + 1 := ⟨n - 1, by omega⟩
          have hb' : b - (p - b * r + e) ≤ 0 := by
            by_contra hpos
            push_neg at hpos
            exact amortLoop_ne_nil r p f n' (m + 1) (ti + b * r) e hpos hrec
          push_neg at hcl
          have : x = ⟨m, (p - b * r + e) + f, p - b * r, b * r, b - (p - b * r + e), e, f⟩ := by
            rw [hrec] at hlast; simpa using hlast.symm
          rw [this]
          show b - (p - b * r + e) = 0
          linarith
        | cons y ys =>
          apply ih (m + 1) (b - (p - b * r + e)) (ti + b * r) e hrest x
          rw [hrec] at hlast ⊢
          rwa [List.getLast?_cons_cons] at hlast

/-- The schedule of `calculate_amortization`, as the underlying loop applied
to whatever payment the formula produced. -/
lemma schedOf_eq_loop (s : EngineState) :
    schedOf s =
      (calculate_monthly_payment s (s.interest_rate / 100 / 12) (s.term_years * 12)).elim []
        (fun p => (amortLoop (s.interest_rate / 100 / 12) p s.monthly_fee
          (s.term_years * 12) 1 s.loan_amount 0 s.extra_payment).1) := by
  cases hp : calculate_monthly_payment s (s.interest_rate / 100 / 12) (s.term_years * 12) <;>
    simp [schedOf, calculate_amortization, hp]

/-- For a positive rate and positive term the payment formula takes its
annuity branch, and the schedule is the loop run on that payment. -/
lemma schedOf_pos_rate (s : EngineState) (hr : 0 < s.interest_rate) (ht : 1 ≤ s.term_years) :
    schedOf s =
      (amortLoop (s.interest_rate / 100 / 12)
        (s.loan_amount * (s.interest_rate / 100 / 12) *
            (1 + s.interest_rate / 100 / 12) ^ (s.term_years * 12) /
          ((1 + s.interest_rate / 100 / 12) ^ (s.term_years * 12) - 1))
        s.monthly_fee (s.term_years * 12) 1 s.loan_amount 0 s.extra_payment).1 := by
  have hrm : 0 < s.interest_rate / 100 / 12 := by positivity
  have hq : (1 : ℚ) < (1 + s.interest_rate / 100 / 12) ^ (s.term_years * 12) :=
    one_lt_pow₀ (by linarith) (Nat.mul_ne_zero (by omega) (by norm_num))
  rw [schedOf_eq_loop, calculate_monthly_payment, if_neg (ne_of_gt hrm), pyDiv,
    if_neg (by linarith : ¬((1 + s.interest_rate / 100 / 12) ^ (s.term_years * 12) - 1 = 0))]
  rfl

/-- The negative power in the annuity denominator, as an inverse. -/
lemma zpow_neg360 (x : ℚ) : x ^ (-360 : ℤ) = (x ^ (360 : ℕ))⁻¹ := by
  rw [zpow_neg]; exact congrArg Inv.inv (zpow_natCast x 360)

/-- Closed form of the flat interest-accrual loop: starting from balance `b`
and reducing by `t` each month for `n` months accrues
`r * (n * b - t * n * (n - 1) / 2)`. -/
lemma flatInterest_closed (r t : ℚ) :
    ∀ (n : ℕ) (b acc : ℚ),
      flatInterest r t n b acc = acc + r * ((n : ℚ) * b - t * ((n : ℚ) * ((n : ℚ) - 1) / 2)) := by
  intro n
  induction n with
  | zero => intro b acc; simp [flatInterest]
  | succ k ih =>
    intro b acc
    rw [flatInterest, ih]
    push_cast
    ring

/-- Characterization of `calculateCore` on the positive-extra branch: with a
positive rate, positive principal payment and positive extra payment, no
division raises and every output field is written out. -/
lemma calculateCore_pos (loan rate pp ep fee : ℚ)
    (hrate : 0 < rate) (hpp : 0 < pp) (hep : 0 < ep) :
    calculateCore loan rate pp ep fee = some
      ⟨loan * (rate / 100 / 12) / (1 - (1 + rate / 100 / 12) ^ (-360 : ℤ)) * 360 - loan,
        (pyInt (loan / (pp + ep))).fdiv 12,
        (pyInt (loan / (pp + ep))).fmod 12,
        (pyInt (loan / pp) - pyInt (loan / (pp + ep))).fdiv 12,
        (pyInt (loan / pp) - pyInt (loan / (pp + ep))).fmod 12,
        loan * (rate / 100 / 12) / (1 - (1 + rate / 100 / 12) ^ (-360 : ℤ)) * 360 - loan -
          flatInterest (rate / 100 / 12) (pp + ep) (pyInt (loan / (pp + ep))).toNat loan 0⟩ := by
  have hrm : 0 < rate / 100 / 12 := by positivity
  have hd := annuity_denom_pos hrm
  simp only [calculateCore]
  rw [if_neg (by linarith : ¬(1 + rate / 100 / 12 = 0)), if_neg (ne_of_gt hd), if_pos hep,
    if_neg (by linarith : ¬(pp + ep = 0)), if_neg (ne_of_gt hpp)]

/-- Characterization of `calculateCore` on the zero-extra branch: with a
positive rate and positive principal payment, it reports zero time saved
and zero interest saved. -/
lemma calculateCore_nonpos_extra (loan rate pp ep fee : ℚ)
    (hrate : 0 < rate) (hpp : 0 < pp) (hep : ¬(0 < ep)) :
    calculateCore loan rate pp ep fee = some
      ⟨loan * (rate / 100 / 12) / (1 - (1 + rate / 100 / 12) ^ (-360 : ℤ)) * 360 - loan,
        pyInt (loan / (pp * 12)), 0, 0, 0, 0⟩ := by
  have hrm : 0 < rate / 100 / 12 := by positivity
  have hd := annuity_denom_pos hrm
  simp only [calculateCore]
  rw [if_neg (by linarith : ¬(1 + rate / 100 / 12 = 0)), if_neg (ne_of_gt hd), if_neg hep,
    if_neg (by positivity : ¬(pp * 12 = 0))]

/-- The annuity payment strictly exceeds the first month's interest. -/
lemma payment_gt_interest {P0 r : ℚ} (hP : 0 < P0) (hr : 0 < r) {n : ℕ} (hn : n ≠ 0) :
    P0 * r < P0 * r * (1 + r) ^ n / ((1 + r) ^ n - 1) := by
  have hq : (1 : ℚ) < (1 + r) ^ n := one_lt_pow₀ (by linarith) hn
  rw [lt_div_iff₀ (by linarith)]
  nlinarith [mul_pos hP hr]

/-! ## Claims -/

/-- C1: with `scheduledPrincipalPayment = 0` and `extraPayment = 0` (loan
seeking 200000, down payment 30000, rate 4.5%), the pre-engine validation
accepts the input, and the payoff section of `calculate` then divides by
zero (`loan_amount / (principal_payment * 12)`), i.e. raises — it neither
rejects the input nor reports an explicit not-applicable result.  This
contradicts the claim, which the spec states as a requirement: the code is
the slip. -/
theorem c1_validation_passes_then_divzero :
    validate_inputs 200000 30000 (9/2) 0 0 0 = true ∧
    calculateCore 170000 (9/2) 0 0 0 = none := by
  constructor
  · decide
  · have hd : (1 : ℚ) - (1 + (9/2 : ℚ) / 100 / 12) ^ (-360 : ℤ) ≠ 0 :=
      ne_of_gt (annuity_denom_pos (by norm_num))
    unfold calculateCore
    rw [if_neg (by norm_num : ¬(1 + (9/2 : ℚ) / 100 / 12 = 0)), if_neg hd]
    norm_num

/-- C8: for positive principal and at least one month, the payment formula
never raises, returns a positive value, equals `P / n` at zero rate and the
standard annuity formula at a positive rate. -/
theorem c8_monthly_payment (s : EngineState) (n : ℕ) (r : ℚ)
    (hP : 0 < s.loan_amount) (hn : 1 ≤ n) (hr : 0 ≤ r) :
    ∃ p, calculate_monthly_payment s r n = some p ∧ 0 < p ∧
      (r = 0 → p = s.loan_amount / n) ∧
      (0 < r → p = s.loan_amount * r * (1 + r) ^ n / ((1 + r) ^ n - 1)) := by
  rcases eq_or_lt_of_le hr with h0 | hpos
  · have hn0 : (n : ℚ) ≠ 0 := Nat.cast_ne_zero.mpr (by omega)
    refine ⟨s.loan_amount / n, ?_, ?_, fun _ => rfl,
      fun hc => absurd hc (by rw [← h0]; exact lt_irrefl 0)⟩
    · rw [calculate_monthly_payment, if_pos h0.symm, pyDiv, if_neg hn0]
    · exact div_pos hP (by exact_mod_cast Nat.lt_of_lt_of_le Nat.zero_lt_one hn)
  · have h1 : (1 : ℚ) < 1 + r := by linarith
    have hq : (1 : ℚ) < (1 + r) ^ n := one_lt_pow₀ h1 (by omega)
    have hden : (1 + r) ^ n - 1 ≠ 0 := ne_of_gt (by linarith)
    refine ⟨_, ?_, ?_, fun h0 => absurd h0 (ne_of_gt hpos), fun _ => rfl⟩
    · rw [calculate_monthly_payment, if_neg (ne_of_gt hpos), pyDiv, if_neg hden]
    · apply div_pos
      · have : (0 : ℚ) < (1 + r) ^ n := by linarith
        positivity
      · linarith

/-- Witness for C8 at the zero-rate input `P = 1000`, `n = 12`. -/
theorem c8_monthly_payment_witness :
    (0 : ℚ) < 1000 ∧
    ∃ p, calculate_monthly_payment ⟨1000, 0, 1, 0, 0⟩ 0 12 = some p ∧ 0 < p ∧
      ((0 : ℚ) = 0 → p = 1000 / (12 : ℕ)) ∧
      ((0 : ℚ) < 0 → p = 1000 * 0 * (1 + 0) ^ 12 / ((1 + 0) ^ 12 - 1)) :=
  ⟨by norm_num, c8_monthly_payment ⟨1000, 0, 1, 0, 0⟩ 12 0 (by norm_num) (by norm_num) le_rfl⟩

/-- C2, counterexample: on the engine state with loan 1000, rate 12%, term 1
year, extra payment 1000, the first `calculate_amortization` call clamps in
month 1 and zeroes the engine's stored `extra_payment`; a second call on the
resulting engine state returns a different result (12 months instead of 1). -/
theorem c2_counterexample :
    firstResult ⟨1000, 12, 1, 1000, 0⟩ ≠ secondResult ⟨1000, 12, 1, 1000, 0⟩ ∧
    (firstResult ⟨1000, 12, 1, 1000, 0⟩).isSome = true := by
  constructor <;> decide

/-- C2, amended: `calculate_amortization` is a pure function of the engine
fields, and a repeated call returns the identical result whenever the first
call leaves the engine's stored `extra_payment` unchanged (in particular
whenever no clamp event consumes it); the call mutates no other field. -/
theorem c2_amended (s : EngineState) (h : extraAfter s = s.extra_payment) :
    secondResult s = firstResult s := by
  cases hc : calculate_amortization s with
  | none => simp [firstResult, secondResult, hc]
  | some x =>
    obtain ⟨res, s'⟩ := x
    have hx : s'.extra_payment = s.extra_payment := by
      simpa [extraAfter, hc] using h
    have hs' : s' = { s with extra_payment := s'.extra_payment } := by
      rw [calculate_amortization] at hc
      rcases Option.map_eq_some'.mp hc with ⟨p, _, heq⟩
      have h2 : ({ s with extra_payment :=
          (amortLoop (s.interest_rate / 100 / 12) p s.monthly_fee (s.term_years * 12) 1
            s.loan_amount 0 s.extra_payment).2.2 } : EngineState) = s' := by
        simpa using congrArg Prod.snd heq
      rw [← h2]
    have hss : s' = s := by rw [hs', hx]
    simp [firstResult, secondResult, hc, hss]

/-- Witness for C2 (amended) at an input whose first call does not clamp. -/
theorem c2_amended_witness :
    extraAfter ⟨1000, 12, 1, 0, 0⟩ = (⟨1000, 12, 1, 0, 0⟩ : EngineState).extra_payment ∧
    secondResult ⟨1000, 12, 1, 0, 0⟩ = firstResult ⟨1000, 12, 1, 0, 0⟩ :=
  ⟨by decide, c2_amended ⟨1000, 12, 1, 0, 0⟩ (by decide)⟩

/-- `extraBefore` under a cons: for later entries, the extra payment in
force is read from the tail, seeded with the head's recorded value. -/
lemma extraBefore_cons (e0 : ℚ) (a : ScheduleEntry) (l : List ScheduleEntry) (k : ℕ) :
    extraBefore e0 (a :: l) (k + 1) = extraBefore a.extra_payment l k := by
  cases k with
  | zero => simp [extraBefore]
  | succ k' => simp [extraBefore]

/-- `clampAt` under a cons, for indices past the head. -/
lemma clampAt_cons (e0 : ℚ) (a : ScheduleEntry) (l : List ScheduleEntry) (k : ℕ) :
    clampAt e0 (a :: l) (k + 1) ↔ clampAt a.extra_payment l k := by
  unfold clampAt
  rw [extraBefore_cons]
  simp

/-- Once a clamp event occurs at some entry of a loop-produced schedule, the
recorded extra payment of that and of every subsequent entry is zero (in
fact the clamp month is always the final entry). -/
lemma amortLoop_clamp_extra (r p f : ℚ) :
    ∀ (fuel m : ℕ) (b ti e : ℚ) (i j : ℕ), i ≤ j →
      j < (amortLoop r p f fuel m b ti e).1.length →
      clampAt e (amortLoop r p f fuel m b ti e).1 i →
      ((amortLoop r p f fuel m b ti e).1.getD j default).extra_payment = 0 := by
  intro fuel
  induction fuel with
  | zero => intro m b ti e i j _ hj _; simp [amortLoop] at hj
  | succ n ih =>
    intro m b ti e i j hij hj hcl
    by_cases hb : b ≤ 0
    · rw [amortLoop_nonpos r p f _ _ _ _ hb] at hj; simp at hj
    · push_neg at hb
      by_cases hc : b < p - b * r + e
      · rw [amortLoop_step_clamp r p f n m ti e hb hc] at hj ⊢
        simp only [List.length_cons, List.length_nil] at hj
        have hj0 : j = 0 := by omega
        subst hj0; rfl
      · rw [amortLoop_step_noclamp r p f n m ti e hb hc] at hj hcl ⊢
        cases i with
        | zero =>
          exfalso
          simp [clampAt, extraBefore] at hcl
          have : b < p - b * r + e := by linarith
          exact hc this
        | succ i' =>
          obtain ⟨j', rfl⟩ : ∃ j', j = j' + 1 := ⟨j - 1, by omega⟩
          rw [clampAt_cons] at hcl
          simp only [List.getD_cons_succ]
          simp only [List.length_cons] at hj
          exact ih (m + 1) _ _ _ i' j' (by omega) (by omega) hcl

/-- C6: in every schedule produced by `calculate_amortization`, once a
clamp-to-zero event occurs at an entry (the month's principal-plus-extra
would exceed the remaining balance), the recorded `extra_payment` of that
entry and of every subsequent entry is zero. -/
theorem c6_clamp_extra_zero (s : EngineState) (i j : ℕ) (hij : i ≤ j)
    (hj : j < (schedOf s).length) (hcl : clampAt s.extra_payment (schedOf s) i) :
    ((schedOf s).getD j default).extra_payment = 0 := by
  cases hp : calculate_monthly_payment s (s.interest_rate / 100 / 12) (s.term_years * 12) with
  | none => rw [schedOf_eq_loop, hp] at hj; simp at hj
  | some p =>
    rw [schedOf_eq_loop, hp] at hj hcl ⊢
    exact amortLoop_clamp_extra _ _ _ _ _ _ _ _ i j hij hj hcl

/-- Witness for C6: loan 1000, rate 12%, term 1 year, extra 100 — the clamp
occurs in month 6 (index 5), whose recorded extra payment is zero. -/
theorem c6_clamp_extra_zero_witness :
    5 < (schedOf ⟨1000, 12, 1, 100, 0⟩).length ∧
    clampAt 100 (schedOf ⟨1000, 12, 1, 100, 0⟩) 5 ∧
    ((schedOf ⟨1000, 12, 1, 100, 0⟩).getD 5 default).extra_payment = 0 :=
  ⟨by decide, by decide,
    c6_clamp_extra_zero ⟨1000, 12, 1, 100, 0⟩ 5 5 le_rfl (by decide) (by decide)⟩

/-- C5: in every schedule produced from valid inputs (positive principal,
rate in (0, 30], term at least one year, non-negative extra payment and
fee), the recorded balances are pairwise non-increasing and never negative,
the schedule is non-empty, and if the schedule ends before the full term
then the last recorded balance is exactly 0. -/
theorem c5_balance_invariants (s : EngineState)
    (hP : 0 < s.loan_amount) (hr : 0 < s.interest_rate) (hr30 : s.interest_rate ≤ 30)
    (ht : 1 ≤ s.term_years) (he : 0 ≤ s.extra_payment) (hf : 0 ≤ s.monthly_fee) :
    (schedOf s).Pairwise (fun a c => c.balance ≤ a.balance) ∧
    (∀ x ∈ schedOf s, 0 ≤ x.balance) ∧
    schedOf s ≠ [] ∧
    ((schedOf s).length < s.term_years * 12 →
      ∀ x, (schedOf s).getLast? = some x → x.balance = 0) := by
  have hrm : 0 < s.interest_rate / 100 / 12 := by positivity
  have hpay : s.loan_amount * (s.interest_rate / 100 / 12) <
      s.loan_amount * (s.interest_rate / 100 / 12) *
          (1 + s.interest_rate / 100 / 12) ^ (s.term_years * 12) /
        ((1 + s.interest_rate / 100 / 12) ^ (s.term_years * 12) - 1) :=
    payment_gt_interest hP hrm (Nat.mul_ne_zero (by omega) (by norm_num))
  rw [schedOf_pos_rate s hr ht]
  refine ⟨?_, ?_, ?_, ?_⟩
  · exact (amortLoop_balance_mono _ _ _ s.loan_amount (le_of_lt hrm) hpay
      (s.term_years * 12) 1 s.loan_amount 0 s.extra_payment he (le_of_lt hP) le_rfl).2
  · exact amortLoop_balance_nonneg _ _ _ _ _ _ _ _
  · obtain ⟨n', hn'⟩ : ∃ n', s.term_years * 12 = n' + 1 := ⟨s.term_years * 12 - 1, by omega⟩
    rw [hn']
    exact amortLoop_ne_nil _ _ _ _ _ _ _ hP
  · exact fun hlen => amortLoop_last_zero _ _ _ _ _ _ _ _ hlen

/-- Witness for C5 at loan 1000, rate 12%, term 1 year, no extra, no fee. -/
theorem c5_balance_invariants_witness :
    ((0 : ℚ) < 1000 ∧ (0 : ℚ) < 12 ∧ (12 : ℚ) ≤ 30) ∧
    ((schedOf ⟨1000, 12, 1, 0, 0⟩).Pairwise (fun a c => c.balance ≤ a.balance) ∧
      (∀ x ∈ schedOf ⟨1000, 12, 1, 0, 0⟩, 0 ≤ x.balance) ∧
      schedOf ⟨1000, 12, 1, 0, 0⟩ ≠ [] ∧
      ((schedOf ⟨1000, 12, 1, 0, 0⟩).length < 1 * 12 →
        ∀ x, (schedOf ⟨1000, 12, 1, 0, 0⟩).getLast? = some x → x.balance = 0)) :=
  ⟨by norm_num,
    c5_balance_invariants ⟨1000, 12, 1, 0, 0⟩ (by norm_num) (by norm_num) (by norm_num)
      (by norm_num) (by norm_num) (by norm_num)⟩

/-- C10 (implicit): the `principal` recorded on every schedule entry is the
unclamped `payment - interest`, even in a clamp month; consequently, at the
concrete input loan 1000, rate 12%, term 1 year, extra payment 1/2, the
final (clamp) entry's recorded principal exceeds the actual balance
reduction of that month (the recorded payment minus the fee), and the sum
of the recorded principal fields exceeds the original principal 1000. -/
theorem c10_principal_field :
    (∀ (s : EngineState) (x : ScheduleEntry), x ∈ schedOf s →
      x.principal = paymentOf s - x.interest) ∧
    ((schedOf ⟨1000, 12, 1, 1/2, 0⟩).length = 12 ∧
      1000 < ((schedOf ⟨1000, 12, 1, 1/2, 0⟩).map ScheduleEntry.principal).sum ∧
      ((schedOf ⟨1000, 12, 1, 1/2, 0⟩).getD 11 default).payment -
          ((schedOf ⟨1000, 12, 1, 1/2, 0⟩).getD 11 default).fee <
        ((schedOf ⟨1000, 12, 1, 1/2, 0⟩).getD 11 default).principal) := by
  constructor
  · intro s x hx
    cases hp : calculate_monthly_payment s (s.interest_rate / 100 / 12) (s.term_years * 12) with
    | none => rw [schedOf_eq_loop, hp] at hx; simp at hx
    | some p =>
      rw [schedOf_eq_loop, hp] at hx
      have hpx := amortLoop_principal_eq (s.interest_rate / 100 / 12) p s.monthly_fee
        (s.term_years * 12) 1 s.loan_amount 0 s.extra_payment x hx
      rw [hpx, paymentOf, hp]
      rfl
  · refine ⟨by decide, by decide, by decide⟩

/-- Witness for C10 at the zero-rate input loan 12, term 1 year: the first
entry records principal 1 and interest 0, and the payment is 1. -/
theorem c10_principal_field_witness :
    (⟨1, 1, 1, 0, 11, 0, 0⟩ : ScheduleEntry) ∈ schedOf ⟨12, 0, 1, 0, 0⟩ ∧
    (⟨1, 1, 1, 0, 11, 0, 0⟩ : ScheduleEntry).principal =
      paymentOf ⟨12, 0, 1, 0, 0⟩ - (⟨1, 1, 1, 0, 11, 0, 0⟩ : ScheduleEntry).interest :=
  ⟨by decide, c10_principal_field.1 ⟨12, 0, 1, 0, 0⟩ ⟨1, 1, 1, 0, 11, 0, 0⟩ (by decide)⟩

/-- The exact annuity run of the schedule loop at zero extra payment: with
the balance on the closed-form annuity trajectory
`B m = P ((1+r)^n - (1+r)^m) / ((1+r)^n - 1)`, the loop runs for exactly its
remaining fuel `n - m` months and the recorded principal fields sum to the
remaining balance `B m`. -/
lemma amortLoop_annuity (r P f : ℚ) (hr : 0 < r) (hP : 0 < P) (n : ℕ) (hn : n ≠ 0) :
    ∀ (fuel m : ℕ) (ti : ℚ), m + fuel = n →
      (amortLoop r (P * r * (1 + r) ^ n / ((1 + r) ^ n - 1)) f fuel (m + 1)
          (P * ((1 + r) ^ n - (1 + r) ^ m) / ((1 + r) ^ n - 1)) ti 0).1.length = fuel ∧
      (((amortLoop r (P * r * (1 + r) ^ n / ((1 + r) ^ n - 1)) f fuel (m + 1)
            (P * ((1 + r) ^ n - (1 + r) ^ m) / ((1 + r) ^ n - 1)) ti 0).1.map
          ScheduleEntry.principal).sum =
        P * ((1 + r) ^ n - (1 + r) ^ m) / ((1 + r) ^ n - 1)) := by
  have h1 : (1 : ℚ) < 1 + r := by linarith
  have hq : (1 : ℚ) < (1 + r) ^ n := one_lt_pow₀ h1 hn
  have hden : (0 : ℚ) < (1 + r) ^ n - 1 := by linarith
  intro fuel
  induction fuel with
  | zero =>
    intro m ti hm
    have hmn : m = n := by omega
    subst hmn
    simp [amortLoop]
  | succ k ih =>
    intro m ti hm
    have hmlt : m < n := by omega
    have hqm : (1 + r) ^ m < (1 + r) ^ n := pow_lt_pow_right₀ h1 hmlt
    have hqm1 : (1 + r) ^ (m + 1) ≤ (1 + r) ^ n := pow_le_pow_right₀ (by linarith) (by omega)
    have hB : 0 < P * ((1 + r) ^ n - (1 + r) ^ m) / ((1 + r) ^ n - 1) :=
      div_pos (mul_pos hP (by linarith)) hden
    have key : P * ((1 + r) ^ n - (1 + r) ^ m) / ((1 + r) ^ n - 1) -
        (P * r * (1 + r) ^ n / ((1 + r) ^ n - 1) -
          P * ((1 + r) ^ n - (1 + r) ^ m) / ((1 + r) ^ n - 1) * r + 0) =
        P * ((1 + r) ^ n - (1 + r) ^ (m + 1)) / ((1 + r) ^ n - 1) := by
      field_simp
      ring
    have hB1 : 0 ≤ P * ((1 + r) ^ n - (1 + r) ^ (m + 1)) / ((1 + r) ^ n - 1) :=
      div_nonneg (mul_nonneg (le_of_lt hP) (by linarith)) (le_of_lt hden)
    have hcl : ¬(P * ((1 + r) ^ n - (1 + r) ^ m) / ((1 + r) ^ n - 1) <
        P * r * (1 + r) ^ n / ((1 + r) ^ n - 1) -
          P * ((1 + r) ^ n - (1 + r) ^ m) / ((1 + r) ^ n - 1) * r + 0) := by
      intro hlt
      have : P * ((1 + r) ^ n - (1 + r) ^ (m + 1)) / ((1 + r) ^ n - 1) < 0 := by linarith
      linarith
    rw [amortLoop_step_noclamp _ _ _ _ _ _ _ hB hcl, key]
    have hrec := ih (m + 1) (ti + P * ((1 + r) ^ n - (1 + r) ^ m) / ((1 + r) ^ n - 1) * r)
      (by omega)
    refine ⟨by simpa using hrec.1, ?_⟩
    simp only [List.map_cons, List.sum_cons]
    rw [hrec.2]
    linarith [key]

/-- C9: with zero extra payment and valid inputs, the schedule has exactly
`termYears * 12` entries (the annuity payment alone never exhausts the
balance earlier, in exact arithmetic), and the recorded principal fields sum
exactly to the loan principal. -/
theorem c9_no_extra_schedule (s : EngineState) (hP : 0 < s.loan_amount)
    (hr : 0 < s.interest_rate) (ht : 1 ≤ s.term_years) (he : s.extra_payment = 0) :
    (schedOf s).length = s.term_years * 12 ∧
    ((schedOf s).map ScheduleEntry.principal).sum = s.loan_amount := by
  have hrm : 0 < s.interest_rate / 100 / 12 := by positivity
  have hn : s.term_years * 12 ≠ 0 := Nat.mul_ne_zero (by omega) (by norm_num)
  have hq : (1 : ℚ) < (1 + s.interest_rate / 100 / 12) ^ (s.term_years * 12) :=
    one_lt_pow₀ (by linarith) hn
  have hB0 : s.loan_amount *
      ((1 + s.interest_rate / 100 / 12) ^ (s.term_years * 12) -
        (1 + s.interest_rate / 100 / 12) ^ (0 : ℕ)) /
      ((1 + s.interest_rate / 100 / 12) ^ (s.term_years * 12) - 1) = s.loan_amount := by
    rw [pow_zero, mul_div_assoc, div_self (by linarith), mul_one]
  obtain ⟨hlen, hsum⟩ := amortLoop_annuity (s.interest_rate / 100 / 12) s.loan_amount
    s.monthly_fee hrm hP (s.term_years * 12) hn (s.term_years * 12) 0 0 (by omega)
  rw [hB0] at hlen hsum
  rw [schedOf_pos_rate s hr ht, he]
  norm_num at hlen hsum
  exact ⟨hlen, hsum⟩

/-- Witness for C9 at loan 1000, rate 12%, term 1 year. -/
theorem c9_no_extra_schedule_witness :
    ((0 : ℚ) < 1000 ∧ (0 : ℚ) < 12 ∧ (0 : ℚ) = 0) ∧
    (schedOf ⟨1000, 12, 1, 0, 0⟩).length = 1 * 12 ∧
    ((schedOf ⟨1000, 12, 1, 0, 0⟩).map ScheduleEntry.principal).sum = 1000 :=
  ⟨by norm_num,
    c9_no_extra_schedule ⟨1000, 12, 1, 0, 0⟩ (by norm_num) (by norm_num) (by norm_num) rfl⟩

/-- C3, counterexample: at loan 100000, rate 12%, scheduled payment 1000,
extra payment 500, the `interest_saved` reported by `calculate` differs from
`baselineInterest - interestPaid` with the baseline computed by the flat
monthly-reduction model (the spec's §4.3 baseline): the code's baseline is
the fixed 360-month annuity total (over 260000 here), not the flat-model
baseline (50500 here). -/
theorem c3_counterexample :
    (calculateCore 100000 12 1000 500 0).isSome = true ∧
    cInterestSaved 100000 12 1000 500 0 ≠
      specFlatBaselineInterest 100000 (12 / 100 / 12) 1000 -
        flatInterest (12 / 100 / 12) (1000 + 500)
          (pyInt ((100000 : ℚ) / (1000 + 500))).toNat 100000 0 := by
  have hcc := calculateCore_pos 100000 12 1000 500 0 (by norm_num) (by norm_num) (by norm_num)
  constructor
  · rw [hcc]; rfl
  · rw [cInterestSaved, hcc]
    have hBase : specFlatBaselineInterest 100000 ((12 : ℚ) / 100 / 12) 1000 = 50500 := by
      rw [specFlatBaselineInterest,
        show (⌈(100000 : ℚ) / 1000⌉).toNat = 100 by norm_num; rfl,
        flatInterest_closed]
      norm_num
    have hq : (1 : ℚ) < (1 + 12 / 100 / 12) ^ (360 : ℕ) :=
      one_lt_pow₀ (by norm_num) (by norm_num)
    have hD : (0 : ℚ) < 1 - (1 + 12 / 100 / 12) ^ (-360 : ℤ) :=
      annuity_denom_pos (by norm_num)
    have hDlt : (1 : ℚ) - (1 + 12 / 100 / 12) ^ (-360 : ℤ) < 1 := by
      rw [zpow_neg360]
      have : (0 : ℚ) < ((1 + 12 / 100 / 12 : ℚ) ^ (360 : ℕ))⁻¹ := by positivity
      linarith
    have hbase : (1000 : ℚ) <
        100000 * (12 / 100 / 12) / (1 - (1 + 12 / 100 / 12) ^ (-360 : ℤ)) := by
      rw [show (100000 : ℚ) * (12 / 100 / 12) = 1000 by norm_num, lt_div_iff₀ hD]
      nlinarith
    intro h
    simp only [Option.elim] at h
    rw [hBase] at h
    have hTI : 100000 * ((12 : ℚ) / 100 / 12) / (1 - (1 + 12 / 100 / 12) ^ (-360 : ℤ)) * 360 -
        100000 = 50500 := by linarith
    nlinarith [hbase]

/-- C3, amended: for positive rate, scheduled payment and extra payment, the
displayed `interest_saved` equals the fixed 360-month annuity total interest
(`base_monthly * 360 - loan`) minus the interest paid under the flat
reduction by `scheduledPrincipalPayment + extraPayment` — i.e. the baseline
is the annuity total, not the flat-model baseline. -/
theorem c3_amended (loan rate pp ep fee : ℚ)
    (hrate : 0 < rate) (hpp : 0 < pp) (hep : 0 < ep) :
    cInterestSaved loan rate pp ep fee =
      (loan * (rate / 100 / 12) / (1 - (1 + rate / 100 / 12) ^ (-360 : ℤ)) * 360 - loan) -
        flatInterest (rate / 100 / 12) (pp + ep) (pyInt (loan / (pp + ep))).toNat loan 0 := by
  rw [cInterestSaved, calculateCore_pos loan rate pp ep fee hrate hpp hep]
  rfl

/-- Witness for C3 (amended) at loan 100000, rate 12%, payments 1000/500. -/
theorem c3_amended_witness :
    ((0 : ℚ) < 12 ∧ (0 : ℚ) < 1000 ∧ (0 : ℚ) < 500) ∧
    cInterestSaved 100000 12 1000 500 0 =
      (100000 * ((12 : ℚ) / 100 / 12) / (1 - (1 + (12 : ℚ) / 100 / 12) ^ (-360 : ℤ)) * 360 -
          100000) -
        flatInterest ((12 : ℚ) / 100 / 12) (1000 + 500)
          (pyInt ((100000 : ℚ) / (1000 + 500))).toNat 100000 0 :=
  ⟨by norm_num, c3_amended 100000 12 1000 500 0 (by norm_num) (by norm_num) (by norm_num)⟩

/-- The yearly loop emits exactly one interest figure per requested year. -/
lemma yearlyLoop_length (r pp ep : ℚ) :
    ∀ (n : ℕ) (b : ℚ), (yearlyLoop r pp ep n b).length = n := by
  intro n
  induction n with
  | zero => intro b; rfl
  | succ k ih => intro b; simp [yearlyLoop, ih]

/-- The inner year simulation accrues a non-negative interest total when the
monthly rate is non-negative. -/
lemma yearInner_nonneg (r pp ep : ℚ) (hr : 0 ≤ r) :
    ∀ (k : ℕ) (b : ℚ), 0 ≤ (yearInner r pp ep k b).1 := by
  intro k
  induction k with
  | zero => intro b; exact le_rfl
  | succ k' ih =>
    intro b
    rw [yearInner]
    by_cases hb : b ≤ 0
    · rw [if_pos hb]
    · rw [if_neg hb]
      push_neg at hb
      have := ih (b - (pp + ep))
      have : 0 ≤ b * r := mul_nonneg (le_of_lt hb) hr
      simp only
      positivity
  -- positivity closes 0 ≤ b * r + rest using both facts

/-- Every per-year interest figure in the yearly loop is non-negative. -/
lemma yearlyLoop_nonneg (r pp ep : ℚ) (hr : 0 ≤ r) :
    ∀ (n : ℕ) (b : ℚ), ∀ y ∈ yearlyLoop r pp ep n b, 0 ≤ y := by
  intro n
  induction n with
  | zero => intro b y hy; simp [yearlyLoop] at hy
  | succ k ih =>
    intro b y hy
    rw [yearlyLoop] at hy
    rcases List.mem_cons.mp hy with h | h
    · subst h; exact yearInner_nonneg r pp ep hr 12 b
    · exact ih _ y h

/-- C4, counterexample: at loan 100000, rate 12%, scheduled payment 600,
extra payment 400, the payoff takes 100 months, but `calculate` passes
`years_to_payoff = 100 // 12 = 8` to the aggregator, which therefore
produces 8 rows — not `ceil(100 / 12) = 9` rows as the claim states. -/
theorem c4_counterexample :
    (calculateCore 100000 12 600 400 0).isSome = true ∧
    cMonthsToPayoff 100000 12 600 400 0 = 100 ∧
    (update_yearly_visualization 100000 (12 / 100 / 12) (cYearsToPayoff 100000 12 600 400 0)
        600 400 0).length = 8 ∧
    (8 : ℤ) ≠ ⌈(100 : ℚ) / 12⌉ := by
  have hcc := calculateCore_pos 100000 12 600 400 0 (by norm_num) (by norm_num) (by norm_num)
  have hpy : pyInt ((100000 : ℚ) / (600 + 400)) = 100 := by
    rw [pyInt, if_pos (by norm_num)]
    norm_num
  have h9 : ⌈(100 : ℚ) / 12⌉ = 9 := by
    rw [Int.ceil_eq_iff]
    norm_num
  refine ⟨by rw [hcc]; rfl, ?_, ?_, by rw [h9]; norm_num⟩
  · rw [cMonthsToPayoff, hcc]
    simp only [Option.elim]
    rw [hpy]
    decide
  · rw [cYearsToPayoff, hcc]
    simp only [Option.elim]
    rw [hpy]
    decide

/-- C4, amended: the aggregator produces exactly `max(years, 1)` rows, where
`years` is the `years_to_payoff = monthsToPayoff // 12` (floor, not
ceiling) that `calculate` passes it — so exactly one row when
`years ≤ 0` — and, for non-negative rate, payments and fee, each row's
plotted total `basePrincipal + extraPrincipal + interest + monthlyFee * 12`
is non-negative. -/
theorem c4_amended :
    (∀ (loan_amount monthly_rate : ℚ) (years : ℤ) (pp ep fee : ℚ),
      (update_yearly_visualization loan_amount monthly_rate years pp ep fee).length =
        if 0 < years then years.toNat else 1) ∧
    (∀ (loan_amount monthly_rate : ℚ) (years : ℤ) (pp ep fee : ℚ),
      0 ≤ monthly_rate → 0 ≤ pp → 0 ≤ ep → 0 ≤ fee →
      ∀ row ∈ update_yearly_visualization loan_amount monthly_rate years pp ep fee,
        0 ≤ row.2) := by
  constructor
  · intro loan r years pp ep fee
    simp [update_yearly_visualization, yearlyLoop_length]
  · intro loan r years pp ep fee hr hpp hep hfee row hrow
    simp only [update_yearly_visualization, List.mem_map] at hrow
    obtain ⟨y, hy, hrw⟩ := hrow
    have hynn := yearlyLoop_nonneg r pp ep hr _ loan y hy
    rw [← hrw]
    simp only
    positivity

/-- Witness for C4 (amended), second part, at rate 1%, payments 600/400,
fee 50, 8 years. -/
theorem c4_amended_witness :
    ((0 : ℚ) ≤ 1/100 ∧ (0 : ℚ) ≤ 600 ∧ (0 : ℚ) ≤ 400 ∧ (0 : ℚ) ≤ 50) ∧
    (∀ row ∈ update_yearly_visualization 100000 (1/100) 8 600 400 50, 0 ≤ row.2) :=
  ⟨by norm_num,
    c4_amended.2 100000 (1/100) 8 600 400 50 (by norm_num) (by norm_num) (by norm_num)
      (by norm_num)⟩

/-- The accumulated interest returned by the schedule loop is at least the
accumulator it started from, for a non-negative rate. -/
lemma amortLoop_ti_le (r p f : ℚ) (hr : 0 ≤ r) :
    ∀ (fuel m : ℕ) (b ti e : ℚ), ti ≤ (amortLoop r p f fuel m b ti e).2.1 := by
  intro fuel
  induction fuel with
  | zero => intro m b ti e; simp [amortLoop]
  | succ n ih =>
    intro m b ti e
    by_cases hb : b ≤ 0
    · rw [amortLoop_nonpos r p f _ _ _ _ hb]
    · push_neg at hb
      have hbr : 0 ≤ b * r := mul_nonneg hb.le hr
      by_cases hc : b < p - b * r + e
      · rw [amortLoop_step_clamp r p f n m ti e hb hc]
        simp only
        linarith
      · rw [amortLoop_step_noclamp r p f n m ti e hb hc]
        simp only
        exact le_trans (by linarith) (ih (m + 1) _ (ti + b * r) e)

/-- Coupled monotonicity of the schedule loop in the extra payment: a run
with a smaller balance, smaller accumulated interest and larger extra
payment produces no more entries and no more total interest. -/
lemma amortLoop_mono_extra (r p f : ℚ) (hr : 0 ≤ r) :
    ∀ (fuel m : ℕ) (b1 b2 ti1 ti2 e1 e2 : ℚ), b2 ≤ b1 → ti2 ≤ ti1 → e1 ≤ e2 →
      (amortLoop r p f fuel m b2 ti2 e2).1.length ≤
          (amortLoop r p f fuel m b1 ti1 e1).1.length ∧
      (amortLoop r p f fuel m b2 ti2 e2).2.1 ≤ (amortLoop r p f fuel m b1 ti1 e1).2.1 := by
  intro fuel
  induction fuel with
  | zero =>
    intro m b1 b2 ti1 ti2 e1 e2 _ hti _
    exact ⟨le_rfl, hti⟩
  | succ n ih =>
    intro m b1 b2 ti1 ti2 e1 e2 hb hti he
    by_cases hb2 : b2 ≤ 0
    · rw [amortLoop_nonpos r p f _ _ _ _ hb2]
      exact ⟨Nat.zero_le _, le_trans hti (amortLoop_ti_le r p f hr _ _ _ _ _)⟩
    · push_neg at hb2
      have hb1 : 0 < b1 := lt_of_lt_of_le hb2 hb
      have hbr : b2 * r ≤ b1 * r := mul_le_mul_of_nonneg_right hb hr
      by_cases hc2 : b2 < p - b2 * r + e2
      · rw [amortLoop_step_clamp r p f n m ti2 e2 hb2 hc2]
        by_cases hc1 : b1 < p - b1 * r + e1
        · rw [amortLoop_step_clamp r p f n m ti1 e1 hb1 hc1]
          exact ⟨le_rfl, by simp only; linarith⟩
        · rw [amortLoop_step_noclamp r p f n m ti1 e1 hb1 hc1]
          constructor
          · simp only [List.length_cons, List.length_nil]
            omega
          · have h1 := amortLoop_ti_le r p f hr n (m + 1)
              (b1 - (p - b1 * r + e1)) (ti1 + b1 * r) e1
            simp only
            linarith
      · have hc1 : ¬(b1 < p - b1 * r + e1) := by
          intro h
          push_neg at hc2
          have : p - b1 * r + e1 ≤ p - b2 * r + e2 := by linarith
          linarith
        rw [amortLoop_step_noclamp r p f n m ti2 e2 hb2 hc2,
          amortLoop_step_noclamp r p f n m ti1 e1 hb1 hc1]
        have hb' : b2 - (p - b2 * r + e2) ≤ b1 - (p - b1 * r + e1) := by linarith
        have hti' : ti2 + b2 * r ≤ ti1 + b1 * r := by linarith
        obtain ⟨hl, ht⟩ := ih (m + 1) _ _ _ _ e1 e2 hb' hti' he
        constructor
        · simp only [List.length_cons]
          omega
        · exact ht

/-- Python truncation is monotone on non-negative values. -/
lemma pyInt_mono {x y : ℚ} (hx : 0 ≤ x) (hxy : x ≤ y) : pyInt x ≤ pyInt y := by
  rw [pyInt, pyInt, if_pos hx, if_pos (le_trans hx hxy)]
  exact Int.floor_le_floor hxy

/-- The flat interest-accrual loop never decreases its accumulator while
all touched balances are non-negative. -/
lemma flatInterest_acc_le (r t : ℚ) (hr : 0 ≤ r) :
    ∀ (n : ℕ) (b acc : ℚ), (∀ k, k < n → 0 ≤ b - k * t) →
      acc ≤ flatInterest r t n b acc := by
  intro n
  induction n with
  | zero => intro b acc _; exact le_rfl
  | succ m ih =>
    intro b acc hpos
    rw [flatInterest]
    have hb : 0 ≤ b := by simpa using hpos 0 (Nat.succ_pos m)
    refine le_trans (le_add_of_nonneg_right (mul_nonneg hb hr)) (ih (b - t) (acc + b * r) ?_)
    intro k hk
    have := hpos (k + 1) (by omega)
    push_cast at this ⊢
    linarith

/-- Coupled monotonicity of the flat interest-accrual loop: fewer months, a
larger flat payment, a smaller balance and a smaller accumulator yield no
more accrued interest, as long as the longer run touches only non-negative
balances. -/
lemma flatInterest_mono (r : ℚ) (hr : 0 ≤ r) (t1 t2 : ℚ) (ht : t1 ≤ t2) :
    ∀ (n2 n1 : ℕ) (b1 b2 acc1 acc2 : ℚ), n2 ≤ n1 → b2 ≤ b1 → acc2 ≤ acc1 →
      (∀ k, k < n1 → 0 ≤ b1 - k * t1) →
      flatInterest r t2 n2 b2 acc2 ≤ flatInterest r t1 n1 b1 acc1 := by
  intro n2
  induction n2 with
  | zero =>
    intro n1 b1 b2 acc1 acc2 _ _ hacc hpos
    exact le_trans hacc (flatInterest_acc_le r t1 hr n1 b1 acc1 hpos)
  | succ m ih =>
    intro n1 b1 b2 acc1 acc2 hn hb hacc hpos
    obtain ⟨n1', rfl⟩ : ∃ n1', n1 = n1' + 1 := ⟨n1 - 1, by omega⟩
    rw [flatInterest, flatInterest]
    have hbr : b2 * r ≤ b1 * r := mul_le_mul_of_nonneg_right hb hr
    refine ih n1' (b1 - t1) (b2 - t2) (acc1 + b1 * r) (acc2 + b2 * r) (by omega) (by linarith)
      (by linarith) ?_
    intro k hk
    have := hpos (k + 1) (by omega)
    push_cast at this ⊢
    linarith

/-- All balances touched by the code's flat simulation over
`int(loan / t)` months are non-negative. -/
lemma div_floor_steps_nonneg {loan t : ℚ} (hloan : 0 ≤ loan) (ht : 0 < t) :
    ∀ k, k < (pyInt (loan / t)).toNat → 0 ≤ loan - k * t := by
  intro k hk
  have hdiv : 0 ≤ loan / t := div_nonneg hloan ht.le
  have hpy : pyInt (loan / t) = ⌊loan / t⌋ := by rw [pyInt, if_pos hdiv]
  have hk' : (k : ℤ) + 1 ≤ ⌊loan / t⌋ := by omega
  have h1 : ((k : ℚ) + 1) ≤ loan / t := by
    calc ((k : ℚ) + 1) = (((k : ℤ) + 1 : ℤ) : ℚ) := by push_cast; ring
    _ ≤ (⌊loan / t⌋ : ℚ) := by exact_mod_cast hk'
    _ ≤ loan / t := Int.floor_le _
  have h2 : ((k : ℚ) + 1) * t ≤ loan := by
    rw [← le_div_iff₀ ht]
    exact h1
  nlinarith

/-- Python's `divmod`-style split by 12 recombines to the original value. -/
lemma twelve_fdiv_fmod (t : ℤ) : 12 * t.fdiv 12 + t.fmod 12 = t := by
  have := Int.fmod_add_fdiv t 12
  linarith

/-- C7, counterexample: holding loan 100000, rate 12%, scheduled payment 50
fixed and raising the extra payment from 0 to 50, the displayed
`interest_saved` strictly decreases (from 0 to a negative value), because
the `extra_payment = 0` branch hard-codes `interest_saved = 0` while the
positive branch subtracts a flat-simulation interest (500500) that exceeds
the 360-month annuity total interest (at most 360000). -/
theorem c7_counterexample :
    (calculateCore 100000 12 50 0 0).isSome = true ∧
    (calculateCore 100000 12 50 50 0).isSome = true ∧
    cInterestSaved 100000 12 50 50 0 < cInterestSaved 100000 12 50 0 0 := by
  have h1 := calculateCore_nonpos_extra 100000 12 50 0 0 (by norm_num) (by norm_num)
    (by norm_num)
  have h2 := calculateCore_pos 100000 12 50 50 0 (by norm_num) (by norm_num) (by norm_num)
  refine ⟨by rw [h1]; rfl, by rw [h2]; rfl, ?_⟩
  rw [cInterestSaved, cInterestSaved, h1, h2]
  simp only [Option.elim]
  have hn : (pyInt ((100000 : ℚ) / (50 + 50))).toNat = 1000 := by
    rw [show (100000 : ℚ) / (50 + 50) = 1000 by norm_num, pyInt, if_pos (by norm_num),
      show ⌊(1000 : ℚ)⌋ = 1000 by norm_num]
    rfl
  rw [hn, flatInterest_closed]
  have hB : (23/5 : ℚ) ≤ (1 + 12 / 100 / 12) ^ (360 : ℕ) := by
    have h := one_add_mul_le_pow (by norm_num : (-2 : ℚ) ≤ 12 / 100 / 12) 360
    norm_num at h ⊢
  have hqpos : (0 : ℚ) < (1 + 12 / 100 / 12) ^ (360 : ℕ) := by positivity
  have hinv : ((1 + (12 : ℚ) / 100 / 12) ^ (360 : ℕ))⁻¹ ≤ 5/23 := by
    rw [show (5/23 : ℚ) = (23/5 : ℚ)⁻¹ by norm_num]
    gcongr
  have hD : (18/23 : ℚ) ≤ 1 - (1 + (12 : ℚ) / 100 / 12) ^ (-360 : ℤ) := by
    rw [zpow_neg360]
    linarith
  have hDpos : (0 : ℚ) < 1 - (1 + (12 : ℚ) / 100 / 12) ^ (-360 : ℤ) :=
    annuity_denom_pos (by norm_num)
  have hbase : 100000 * ((12 : ℚ) / 100 / 12) / (1 - (1 + (12 : ℚ) / 100 / 12) ^ (-360 : ℤ)) ≤
      11500 / 9 := by
    rw [show (100000 : ℚ) * (12 / 100 / 12) = 1000 by norm_num,
      show (11500 : ℚ) / 9 = 1000 / (18/23) by norm_num]
    gcongr
  push_cast
  linarith [hbase]

/-- C7, amended: increasing the extra payment (other parameters fixed) never
increases the schedule generator's `payoffMonth` or `totalInterest`, and
never decreases the projector's displayed time saved; the projector's
`interest_saved` is also monotone, but only within the positive-extra
branch (`0 < e1 ≤ e2`) — raising the extra payment from exactly 0 can
strictly decrease it, since the zero-extra branch hard-codes 0. -/
theorem c7_amended :
    (∀ (s : EngineState) (e1 e2 : ℚ), 0 ≤ s.interest_rate → e1 ≤ e2 →
      payoffMonthOf { s with extra_payment := e2 } ≤
          payoffMonthOf { s with extra_payment := e1 } ∧
      totalInterestOf { s with extra_payment := e2 } ≤
          totalInterestOf { s with extra_payment := e1 }) ∧
    (∀ (loan rate pp fee e1 e2 : ℚ), 0 ≤ loan → 0 < rate → 0 < pp → 0 ≤ e1 → e1 ≤ e2 →
      cTimeSaved loan rate pp e1 fee ≤ cTimeSaved loan rate pp e2 fee ∧
      (0 < e1 → cInterestSaved loan rate pp e1 fee ≤ cInterestSaved loan rate pp e2 fee)) := by
  constructor
  · intro s e1 e2 hr he
    have hrm : (0 : ℚ) ≤ s.interest_rate / 100 / 12 := by positivity
    have hcmp1 : calculate_monthly_payment { s with extra_payment := e1 }
        (s.interest_rate / 100 / 12) (s.term_years * 12) =
        calculate_monthly_payment s (s.interest_rate / 100 / 12) (s.term_years * 12) := rfl
    have hcmp2 : calculate_monthly_payment { s with extra_payment := e2 }
        (s.interest_rate / 100 / 12) (s.term_years * 12) =
        calculate_monthly_payment s (s.interest_rate / 100 / 12) (s.term_years * 12) := rfl
    cases hp : calculate_monthly_payment s (s.interest_rate / 100 / 12) (s.term_years * 12) with
    | none =>
      simp [payoffMonthOf, totalInterestOf, calculate_amortization, hcmp1, hcmp2, hp]
    | some p =>
      simp only [payoffMonthOf, totalInterestOf, calculate_amortization, hcmp1, hcmp2, hp,
        Option.map_some', Option.elim]
      exact amortLoop_mono_extra (s.interest_rate / 100 / 12) p s.monthly_fee hrm
        (s.term_years * 12) 1 s.loan_amount s.loan_amount 0 0 e1 e2 le_rfl le_rfl he
  · intro loan rate pp fee e1 e2 hloan hrate hpp he1 he
    have hrm : (0 : ℚ) ≤ rate / 100 / 12 := by positivity
    by_cases he1p : 0 < e1
    · have he2p : 0 < e2 := lt_of_lt_of_le he1p he
      rw [cTimeSaved, cTimeSaved, cInterestSaved, cInterestSaved,
        calculateCore_pos loan rate pp e1 fee hrate hpp he1p,
        calculateCore_pos loan rate pp e2 fee hrate hpp he2p]
      simp only [Option.elim]
      have ht1 : (0 : ℚ) < pp + e1 := by linarith
      have ht12 : pp + e1 ≤ pp + e2 := by linarith
      have hdivs : loan / (pp + e2) ≤ loan / (pp + e1) := by
        gcongr
      have hn : pyInt (loan / (pp + e2)) ≤ pyInt (loan / (pp + e1)) :=
        pyInt_mono (div_nonneg hloan (by linarith)) hdivs
      constructor
      · rw [twelve_fdiv_fmod, twelve_fdiv_fmod]
        omega
      · intro _
        have hmono := flatInterest_mono (rate / 100 / 12) hrm (pp + e1) (pp + e2) ht12
          (pyInt (loan / (pp + e2))).toNat (pyInt (loan / (pp + e1))).toNat loan loan 0 0
          (by omega) le_rfl le_rfl (div_floor_steps_nonneg hloan ht1)
        linarith
    · rw [cTimeSaved, cTimeSaved,
        calculateCore_nonpos_extra loan rate pp e1 fee hrate hpp he1p]
      refine ⟨?_, fun h => absurd h he1p⟩
      by_cases he2p : 0 < e2
      · rw [calculateCore_pos loan rate pp e2 fee hrate hpp he2p]
        simp only [Option.elim]
        rw [twelve_fdiv_fmod]
        have hmono : pyInt (loan / (pp + e2)) ≤ pyInt (loan / pp) :=
          pyInt_mono (div_nonneg hloan (by linarith)) (by gcongr <;> linarith)
        omega
      · rw [calculateCore_nonpos_extra loan rate pp e2 fee hrate hpp he2p]

/-- Witness for C7 (amended): engine part at loan 1000, rate 12%, term 1
year, extra payments 0 and 100; projector part at loan 100000, rate 12%,
scheduled payment 50, extra payments 0 and 50. -/
theorem c7_amended_witness :
    ((0 : ℚ) ≤ 12 ∧ (0 : ℚ) ≤ 100 ∧ (0 : ℚ) < 50) ∧
    (payoffMonthOf ⟨1000, 12, 1, 100, 0⟩ ≤ payoffMonthOf ⟨1000, 12, 1, 0, 0⟩ ∧
      totalInterestOf ⟨1000, 12, 1, 100, 0⟩ ≤ totalInterestOf ⟨1000, 12, 1, 0, 0⟩) ∧
    cTimeSaved 100000 12 50 0 0 ≤ cTimeSaved 100000 12 50 50 0 :=
  ⟨⟨by norm_num, by norm_num, by norm_num⟩,
    c7_amended.1 ⟨1000, 12, 1, 0, 0⟩ 0 100 (by norm_num) (by norm_num),
    (c7_amended.2 100000 12 50 0 0 50 (by norm_num) (by norm_num) (by norm_num) le_rfl
      (by norm_num)).1⟩

end Mortgage
